import Mathlib

/-!
Verification of the RESP protocol codec of this repository.

The embedding models Rust strings (`str` / `Cow<str>`) as their UTF-8 byte
sequences (`List Nat`, each element < 256), since Rust `str` equality and
`len()` are byte-wise.  `f64` payloads are modelled by their IEEE-754 bit
pattern (a `Nat` below 2^64); the decimal formatting and parsing of floats
(Rust `{:?}` / `f64::from_str`) is left as an explicit parameter
(`FloatModel`), and every theorem below either quantifies over it or avoids
the `Double` variant.
-/

namespace Resp

/-- ASCII digit test, as used by `nom::character::streaming::digit1` and by
`RespReader::parse_length`'s `b'0'..=b'9'` pattern. -/
def isDigit (b : Nat) : Bool := 48 ≤ b && b ≤ 57

/-- Accumulate decimal digits the way both decoders do:
`len = len * 10 + (b - b'0')`, folded left over a byte list. -/
def digitsValFrom (acc : Nat) (ds : List Nat) : Nat :=
  ds.foldl (fun a b => a * 10 + (b - 48)) acc

/-- Decimal ASCII rendering of a `Nat`, as produced by Rust's `{}` formatting
of an unsigned integer (most significant digit first, `0` renders as "0"). -/
def natAscii (n : Nat) : List Nat :=
  if n = 0 then [48] else ((Nat.digits 10 n).map (· + 48)).reverse

/-- Decimal ASCII rendering of an `i64` as by Rust's `{}`: a leading `-` for
negative values, no `+` for positive ones. -/
def intAscii (i : Int) : List Nat :=
  if i < 0 then 45 :: natAscii i.natAbs else natAscii i.toNat

/-- Is `b` a UTF-8 continuation byte (`0x80..=0xBF`)? -/
def utf8Cont (b : Nat) : Bool := 128 ≤ b && b ≤ 191

/-- UTF-8 validity of a byte sequence, per RFC 3629 — the acceptance condition
of `std::str::from_utf8` / `String::from_utf8` used by both decoders. -/
def utf8Valid : List Nat → Bool
  | [] => true
  | b :: r =>
    if b ≤ 127 then utf8Valid r
    else if 194 ≤ b && b ≤ 223 then
      match r with
      | c :: r' => utf8Cont c && utf8Valid r'
      | [] => false
    else if b = 224 then
      match r with
      | c :: d :: r' => (160 ≤ c && c ≤ 191) && utf8Cont d && utf8Valid r'
      | _ => false
    else if (225 ≤ b && b ≤ 236) || b = 238 || b = 239 then
      match r with
      | c :: d :: r' => utf8Cont c && utf8Cont d && utf8Valid r'
      | _ => false
    else if b = 237 then
      match r with
      | c :: d :: r' => (128 ≤ c && c ≤ 159) && utf8Cont d && utf8Valid r'
      | _ => false
    else if b = 240 then
      match r with
      | c :: d :: e :: r' =>
        (144 ≤ c && c ≤ 191) && utf8Cont d && utf8Cont e && utf8Valid r'
      | _ => false
    else if 241 ≤ b && b ≤ 243 then
      match r with
      | c :: d :: e :: r' => utf8Cont c && utf8Cont d && utf8Cont e && utf8Valid r'
      | _ => false
    else if b = 244 then
      match r with
      | c :: d :: e :: r' =>
        (128 ≤ c && c ≤ 143) && utf8Cont d && utf8Cont e && utf8Valid r'
      | _ => false
    else false

/-- `src/resp/resp_data_type.rs`: the enum of the fourteen wire types. -/
inductive RespDataType where
  | simpleString | simpleError | integer | bulkString | array | null
  | boolean | double | bigNumber | bulkError | verbatimString | map
  | set | push
  deriving DecidableEq, Repr

/-- `impl From<RespDataType> for char`: the wire tag byte of each type. -/
def RespDataType.tagByte : RespDataType → Nat
  | .simpleString => 43    -- '+'
  | .simpleError => 45     -- '-'
  | .integer => 58         -- ':'
  | .bulkString => 36      -- '$'
  | .array => 42           -- '*'
  | .null => 95            -- '_'
  | .boolean => 35         -- '#'
  | .double => 44          -- ','
  | .bigNumber => 40       -- '('
  | .bulkError => 33       -- '!'
  | .verbatimString => 61  -- '='
  | .map => 37             -- '%'
  | .set => 126            -- '~'
  | .push => 62            -- '>'

/-- `impl TryFrom<char> for RespDataType` (and via `TryFrom<u8>`): the partial
inverse of the tag table; unregistered bytes map to `none` (`Err(())`). -/
def respDataTypeOfByte (b : Nat) : Option RespDataType :=
  if b = 43 then some .simpleString
  else if b = 45 then some .simpleError
  else if b = 58 then some .integer
  else if b = 36 then some .bulkString
  else if b = 42 then some .array
  else if b = 95 then some .null
  else if b = 35 then some .boolean
  else if b = 44 then some .double
  else if b = 40 then some .bigNumber
  else if b = 33 then some .bulkError
  else if b = 61 then some .verbatimString
  else if b = 37 then some .map
  else if b = 126 then some .set
  else if b = 62 then some .push
  else none

/-- `src/resp/resp_value.rs`: the tagged union of RESP wire values.  String
payloads are their UTF-8 bytes; `double` carries the `f64` bit pattern;
`map`/`set` carry their elements in iteration order (the Rust `HashMap`/
`HashSet` iteration order is unspecified — those variants are excluded from
every theorem below, matching the spec's open question). -/
inductive RespValue where
  | null : RespValue
  | boolean (b : Bool) : RespValue
  | integer (i : Int) : RespValue
  | double (bits : Nat) : RespValue
  | bigNumber (s : List Nat) : RespValue
  | simpleString (s : List Nat) : RespValue
  | bulkString (s : List Nat) : RespValue
  | verbatimString (enc : List Nat) (s : List Nat) : RespValue
  | simpleError (s : List Nat) : RespValue
  | bulkError (s : List Nat) : RespValue
  | array (xs : List RespValue) : RespValue
  | map (xs : List (RespValue × RespValue)) : RespValue
  | set (xs : List RespValue) : RespValue
  | push (xs : List RespValue) : RespValue

/-- `impl From<&RespValue> for RespDataType`: the wire type of a value. -/
def RespValue.dataType : RespValue → RespDataType
  | .null => .null
  | .boolean _ => .boolean
  | .integer _ => .integer
  | .double _ => .double
  | .bigNumber _ => .bigNumber
  | .simpleString _ => .simpleString
  | .simpleError _ => .simpleError
  | .bulkString _ => .bulkString
  | .bulkError _ => .bulkError
  | .verbatimString _ _ => .verbatimString
  | .array _ => .array
  | .set _ => .set
  | .map _ => .map
  | .push _ => .push

/-- Is the `f64` with bit pattern `b` a NaN (exponent field all ones and
nonzero mantissa)? -/
def f64IsNaN (b : Nat) : Bool := (b / 2 ^ 52) % 2 ^ 11 = 2047 && b % 2 ^ 52 ≠ 0

/-- Is the `f64` with bit pattern `b` a (positive or negative) zero? -/
def f64IsZero (b : Nat) : Bool := b % 2 ^ 63 = 0

/-- IEEE-754 `==` on `f64`, expressed on bit patterns: NaN compares unequal to
everything (itself included); `+0.0 == -0.0`; every other pair of equal values
has identical bits.  This is Rust's `d1 == d2` on `f64`. -/
def f64Eq (a b : Nat) : Bool :=
  if f64IsNaN a || f64IsNaN b then false
  else if f64IsZero a && f64IsZero b then true
  else a = b

mutual

/-- `impl PartialEq for RespValue`: structural equality per variant; `Double`
uses `f64` `==`; `Array` compares lengths then zips; the final catch-all arm
(covering `Map`, `Set`, `Push` and all cross-variant pairs) returns `false`. -/
def respEq : RespValue → RespValue → Bool
  | .null, .null => true
  | .boolean b1, .boolean b2 => b1 == b2
  | .integer i1, .integer i2 => i1 == i2
  | .double d1, .double d2 => f64Eq d1 d2
  | .bigNumber n1, .bigNumber n2 => n1 == n2
  | .simpleString s1, .simpleString s2 => s1 == s2
  | .bulkString s1, .bulkString s2 => s1 == s2
  | .verbatimString e1 s1, .verbatimString e2 s2 => e1 == e2 && s1 == s2
  | .simpleError e1, .simpleError e2 => e1 == e2
  | .bulkError e1, .bulkError e2 => e1 == e2
  | .array xs, .array ys => xs.length == ys.length && respEqZip xs ys
  | _, _ => false

/-- `arr1.iter().zip(arr2.iter()).all(|(e1, e2)| e1 == e2)`. -/
def respEqZip : List RespValue → List RespValue → Bool
  | x :: xs, y :: ys => respEq x y && respEqZip xs ys
  | _, _ => true

end

/-- The primitive writes a `Hasher` receives. -/
inductive HashTok where
  | u8 (n : Nat)
  | u64 (n : Nat)
  | i64 (i : Int)
  | bytes (bs : List Nat)
  deriving DecidableEq, Repr

/-- `Hash for str`: writes the bytes then a `0xFF` terminator. -/
def strHashTrace (s : List Nat) : List HashTok := [.bytes s, .u8 255]

mutual

/-- `impl Hash for RespValue`: the sequence of primitive writes fed to the
hasher.  `Double` writes `d.to_bits()` as a `u64`; `Array` uses
`Hash::hash_slice` (sequential element hashes, no length prefix); the
catch-all arm (`Null`, `Map`, `Set`, `Push`) writes nothing. -/
def hashTrace : RespValue → List HashTok
  | .boolean b => [.u8 (if b then 1 else 0)]
  | .integer i => [.i64 i]
  | .double d => [.u64 d]
  | .bigNumber n => strHashTrace n
  | .simpleString s => strHashTrace s
  | .bulkString s => strHashTrace s
  | .verbatimString e s => strHashTrace e ++ strHashTrace s
  | .simpleError e => strHashTrace e
  | .bulkError e => strHashTrace e
  | .array xs => hashTraceList xs
  | _ => []

/-- `Hash::hash_slice` over a `Vec<RespValue>`. -/
def hashTraceList : List RespValue → List HashTok
  | [] => []
  | x :: xs => hashTrace x ++ hashTraceList xs

end

/-- The two float/decimal conversions the codec delegates to the Rust standard
library: `fmt` is the `{:?}` (Debug) rendering of an `f64` given its bit
pattern, `ofAscii` is `f64::from_str` on a numeric token (which, on tokens of
the shape the parser recognizes, never fails).  Their definitions (shortest
round-trip formatting, correctly rounded decimal parsing) are not part of this
repository; every theorem below quantifies over them or avoids `Double`. -/
structure FloatModel where
  fmt : Nat → List Nat
  ofAscii : List Nat → Nat

/-- A concrete (arbitrary) instantiation of `FloatModel`, used only to state
closed counterexamples that never touch a `Double`. -/
def floatTriv : FloatModel := ⟨fun _ => [], fun _ => 0⟩

mutual

/-- `impl Display for RespValue` (`src/resp/resp_value.rs`), the encoder:
renders a value to wire bytes.  `first_byte` is `char::from(RespDataType::
from(self))`; scalars are `<tag><content>\r\n`; Bulk kinds are
`<tag><byte-len>\r\n<content>\r\n`; `VerbatimString` declares `3 + 1 +
s.len()` and writes `<enc>:<s>`; aggregates write the element count then the
concatenated elements (for `Map`: key then value per pair). -/
def encode (F : FloatModel) : RespValue → List Nat
  | .null => RespDataType.null.tagByte :: [13, 10]
  | .boolean b => RespDataType.boolean.tagByte :: (if b then 116 else 102) :: [13, 10]
  | .integer i => RespDataType.integer.tagByte :: intAscii i ++ [13, 10]
  | .double d => RespDataType.double.tagByte :: F.fmt d ++ [13, 10]
  | .bigNumber s => RespDataType.bigNumber.tagByte :: s ++ [13, 10]
  | .simpleString s => RespDataType.simpleString.tagByte :: s ++ [13, 10]
  | .simpleError s => RespDataType.simpleError.tagByte :: s ++ [13, 10]
  | .bulkString s => RespDataType.bulkString.tagByte :: natAscii s.length ++ [13, 10] ++ s ++ [13, 10]
  | .bulkError s => RespDataType.bulkError.tagByte :: natAscii s.length ++ [13, 10] ++ s ++ [13, 10]
  | .verbatimString enc s =>
    RespDataType.verbatimString.tagByte :: natAscii (3 + 1 + s.length) ++ [13, 10]
      ++ enc ++ 58 :: s ++ [13, 10]
  | .array xs => RespDataType.array.tagByte :: natAscii xs.length ++ [13, 10] ++ encodeList F xs
  | .push xs => RespDataType.push.tagByte :: natAscii xs.length ++ [13, 10] ++ encodeList F xs
  | .set xs => RespDataType.set.tagByte :: natAscii xs.length ++ [13, 10] ++ encodeList F xs
  | .map xs => RespDataType.map.tagByte :: natAscii xs.length ++ [13, 10] ++ encodePairs F xs

/-- The `for e in arr { write!(f, "{}", e)?; }` loop of the encoder. -/
def encodeList (F : FloatModel) : List RespValue → List Nat
  | [] => []
  | x :: xs => encode F x ++ encodeList F xs

/-- The `for (k, v) in map { write!(f, "{}{}", k, v)?; }` loop. -/
def encodePairs (F : FloatModel) : List (RespValue × RespValue) → List Nat
  | [] => []
  | (k, v) :: xs => encode F k ++ encode F v ++ encodePairs F xs

end

/-- A `BigNumber` payload as the parser will reproduce it: an optional sign
followed by at least one ASCII digit (`recognize(pair(opt(one_of("+-")),
digit1))`). -/
def signedDigits (s : List Nat) : Bool :=
  match s with
  | b :: rest =>
    if b = 43 || b = 45 then !rest.isEmpty && rest.all isDigit
    else !s.isEmpty && s.all isDigit
  | [] => false

/-- A byte that `is_not("\r\n")` accepts. -/
def notCrLfByte (b : Nat) : Bool := b ≠ 13 && b ≠ 10

mutual

/-- Well-formedness of a value for the round-trip property: the conditions
under which the encoder's output is decodable back to the same value.
They package (a) invariants every Rust-constructed `RespValue` has by
typing (payloads are valid UTF-8 since they are `str`; integers fit `i64`;
lengths fit `usize`), and (b) genuine restrictions the claim's universal
quantification misses: no `Set`/`Map` (per the claim), no `Double` (NaN and
the infinities render as `NaN`/`inf`, which the parser rejects), simple
strings/errors nonempty and free of CR and LF, `BigNumber` of sign-digits
shape, and a `VerbatimString` format code of exactly 3 bytes. -/
def Wf : RespValue → Bool
  | .null => true
  | .boolean _ => true
  | .integer i => -(2 ^ 63) ≤ i && i < 2 ^ 63
  | .double _ => false
  | .bigNumber s => signedDigits s
  | .simpleString s => !s.isEmpty && s.all notCrLfByte && utf8Valid s
  | .simpleError s => !s.isEmpty && s.all notCrLfByte && utf8Valid s
  | .bulkString s => utf8Valid s && s.length < 2 ^ 64
  | .bulkError s => utf8Valid s && s.length < 2 ^ 64
  | .verbatimString enc s =>
    enc.length = 3 && utf8Valid enc && utf8Valid s && 3 + 1 + s.length < 2 ^ 64
  | .array xs => xs.length < 2 ^ 64 && WfList xs
  | .push xs => xs.length < 2 ^ 64 && WfList xs
  | .set _ => false
  | .map _ => false

/-- `Wf` on every element of a list. -/
def WfList : List RespValue → Bool
  | [] => true
  | x :: xs => Wf x && WfList xs

end

/-- The three shapes of `nom::Err`: `Incomplete(Needed)` (streaming parsers
need more input), `Error(e)` (recoverable parse error) and `Failure(e)`. -/
inductive NomKind where
  | incomplete | errorKind | failureKind
  deriving DecidableEq, Repr

/-- `ParseError` from `src/resp/parser.rs`: UTF-8 decode failure, integer
parse failure (`ParseIntError`, which includes overflow), float parse failure,
or an error from the nom combinators themselves. -/
inductive ParseError where
  | parseUtf8 | parseInt | parseFloat | nom (k : NomKind)
  deriving DecidableEq, Repr

/-- Parsers consume a prefix of the input; a success carries the number of
bytes consumed (the remaining slice is `input.drop k`) and the value. -/
abbrev PRes (α : Type) := Except ParseError (Nat × α)

/-- `nom::character::streaming::crlf`: matches `\r\n`; a proper prefix of it
at the end of input is `Incomplete`, anything else is `Error`. -/
def nomCrlf (input : List Nat) : PRes Unit :=
  match input with
  | 13 :: 10 :: _ => .ok (2, ())
  | 13 :: [] => .error (.nom .incomplete)
  | [] => .error (.nom .incomplete)
  | _ => .error (.nom .errorKind)

/-- The shared shape of `nom`'s streaming `digit1` and `is_not`: take the
maximal prefix satisfying `p`; if the input ends inside that prefix the token
may continue, so the result is `Incomplete`; an empty token is an `Error`. -/
def nomTakeWhile1 (p : Nat → Bool) (input : List Nat) : PRes (List Nat) :=
  if input.dropWhile p = [] then .error (.nom .incomplete)
  else if (input.takeWhile p).isEmpty then .error (.nom .errorKind)
  else .ok ((input.takeWhile p).length, input.takeWhile p)

/-- `nom::bytes::streaming::take(n)`. -/
def nomTake (n : Nat) (input : List Nat) : PRes (List Nat) :=
  if input.length < n then .error (.nom .incomplete) else .ok (n, input.take n)

/-- `line` = `terminated(is_not("\r\n"), crlf)`. -/
def lineTok (input : List Nat) : PRes (List Nat) :=
  match nomTakeWhile1 notCrLfByte input with
  | .error e => .error e
  | .ok (k, tok) =>
    match nomCrlf (input.drop k) with
    | .error e => .error e
    | .ok (k2, _) => .ok (k + k2, tok)

/-- `parse_usize`: `digit1`, `crlf`, then `str::parse::<usize>` — which on a
64-bit platform fails (with a `ParseIntError`, mapped to `ParseError::
ParseInt`) exactly when the decimal value exceeds `usize::MAX = 2^64 - 1`. -/
def parse_usize (input : List Nat) : PRes Nat :=
  match nomTakeWhile1 isDigit input with
  | .error e => .error e
  | .ok (k, ds) =>
    match nomCrlf (input.drop k) with
    | .error e => .error e
    | .ok (k2, _) =>
      if digitsValFrom 0 ds < 2 ^ 64 then .ok (k + k2, digitsValFrom 0 ds)
      else .error .parseInt

/-- The `alt((digit1, recognize(pair(char('-'), digit1)),
recognize(pair(char('+'), digit1))))` token of `parse_i64`; `alt` tries the
next branch only on `Error` and propagates `Incomplete`. -/
def intToken (input : List Nat) : PRes (List Nat) :=
  match nomTakeWhile1 isDigit input with
  | .ok (k, ds) => .ok (k, ds)
  | .error (.nom .errorKind) =>
    match input with
    | 45 :: rest =>
      (match nomTakeWhile1 isDigit rest with
       | .ok (k, ds) => .ok (1 + k, 45 :: ds)
       | .error e2 => .error e2)
    | 43 :: rest =>
      (match nomTakeWhile1 isDigit rest with
       | .ok (k, ds) => .ok (1 + k, 43 :: ds)
       | .error e2 => .error e2)
    | _ => .error (.nom .errorKind)
  | .error e => .error e

/-- The `i64` range check of `str::parse::<i64>`. -/
def i64Check (v : Int) : Option Int :=
  if -(2 ^ 63) ≤ v && v < 2 ^ 63 then some v else none

/-- `str::parse::<i64>` on an optionally signed digit token: checked, fails
outside `[-2^63, 2^63)`; a leading `-` negates, a leading `+` is skipped. -/
def i64Val (tok : List Nat) : Option Int :=
  match tok with
  | b :: ds =>
    if b = 45 then i64Check (-(digitsValFrom 0 ds : Int))
    else if b = 43 then i64Check ((digitsValFrom 0 ds : Nat) : Int)
    else i64Check ((digitsValFrom 0 tok : Nat) : Int)
  | [] => i64Check ((digitsValFrom 0 ([] : List Nat) : Nat) : Int)

/-- `parse_i64`: signed token, `crlf`, checked `i64` conversion. -/
def parse_i64 (input : List Nat) : PRes Int :=
  match intToken input with
  | .error e => .error e
  | .ok (k, tok) =>
    match nomCrlf (input.drop k) with
    | .error e => .error e
    | .ok (k2, _) =>
      match i64Val tok with
      | some v => .ok (k + k2, v)
      | none => .error .parseInt

/-- `length_bytes` = `terminated(length_value(parse_usize, rest), crlf)`:
parse a length, take that many bytes (`rest` then yields them all), then
require a trailing `crlf`. -/
def length_bytes (input : List Nat) : PRes (List Nat) :=
  match parse_usize input with
  | .error e => .error e
  | .ok (k1, n) =>
    match nomTake n (input.drop k1) with
    | .error e => .error e
    | .ok (_, content) =>
      match nomCrlf (input.drop (k1 + n)) with
      | .error e => .error e
      | .ok (k2, _) => .ok (k1 + n + k2, content)

/-- `parse_null`: `crlf` right after the tag. -/
def parse_null (input : List Nat) : PRes RespValue :=
  (nomCrlf input).map fun (k, _) => (k, .null)

/-- `parse_boolean`: `terminated(one_of("tf"), crlf)`. -/
def parse_boolean (input : List Nat) : PRes RespValue :=
  match input with
  | [] => .error (.nom .incomplete)
  | b :: rest =>
    if b = 116 || b = 102 then
      match nomCrlf rest with
      | .error e => .error e
      | .ok (k, _) => .ok (1 + k, .boolean (b = 116))
    else .error (.nom .errorKind)

/-- `parse_simple_string` = `map(map_cow(line), RespValue::SimpleString)`;
`map_cow` runs `str::from_utf8` on the token. -/
def parse_simple_string (input : List Nat) : PRes RespValue :=
  match lineTok input with
  | .error e => .error e
  | .ok (k, tok) =>
    if utf8Valid tok then .ok (k, .simpleString tok) else .error .parseUtf8

/-- `parse_simple_error`. -/
def parse_simple_error (input : List Nat) : PRes RespValue :=
  match lineTok input with
  | .error e => .error e
  | .ok (k, tok) =>
    if utf8Valid tok then .ok (k, .simpleError tok) else .error .parseUtf8

/-- `parse_bulk_string` = `map(map_cow(length_bytes), RespValue::BulkString)`. -/
def parse_bulk_string (input : List Nat) : PRes RespValue :=
  match length_bytes input with
  | .error e => .error e
  | .ok (k, content) =>
    if utf8Valid content then .ok (k, .bulkString content) else .error .parseUtf8

/-- `parse_bulk_error`. -/
def parse_bulk_error (input : List Nat) : PRes RespValue :=
  match length_bytes input with
  | .error e => .error e
  | .ok (k, content) =>
    if utf8Valid content then .ok (k, .bulkError content) else .error .parseUtf8

/-- `parse_verbatim_string`: `length_bytes`, then on the payload
`tuple((take(3u8), char(':'), rest))` and two `str::from_utf8` calls. -/
def parse_verbatim_string (input : List Nat) : PRes RespValue :=
  match length_bytes input with
  | .error e => .error e
  | .ok (k, content) =>
    match content with
    | a :: b :: c :: 58 :: s =>
      if utf8Valid [a, b, c] then
        if utf8Valid s then .ok (k, .verbatimString [a, b, c] s)
        else .error .parseUtf8
      else .error .parseUtf8
    | _ :: _ :: _ :: _ :: _ => .error (.nom .errorKind)
    | _ => .error (.nom .incomplete)

/-- `parse_integer` = `map(parse_i64, RespValue::Integer)`. -/
def parse_integer (input : List Nat) : PRes RespValue :=
  (parse_i64 input).map fun (k, v) => (k, .integer v)

/-- `parse_big_number`: `recognize(pair(opt(one_of("+-")), digit1))` then
`crlf`; the value keeps the recognized ASCII token. -/
def parse_big_number (input : List Nat) : PRes RespValue :=
  match input with
  | [] => .error (.nom .incomplete)
  | b :: _ =>
    let s := if b = 43 || b = 45 then 1 else 0
    match nomTakeWhile1 isDigit (input.drop s) with
    | .error e => .error e
    | .ok (k, _) =>
      match nomCrlf (input.drop (s + k)) with
      | .error e => .error e
      | .ok (k2, _) => .ok (s + k + k2, .bigNumber (input.take (s + k)))

/-- The `opt(preceded(tag("."), digit1))` fragment of `parse_double`: returns
the number of bytes consumed; `opt` converts an inner `Error` into zero
consumption and propagates `Incomplete`. -/
def fracPart (input : List Nat) : Except ParseError Nat :=
  match input with
  | [] => .error (.nom .incomplete)
  | 46 :: rest =>
    match nomTakeWhile1 isDigit rest with
    | .ok (k, _) => .ok (1 + k)
    | .error (.nom .errorKind) => .ok 0
    | .error e => .error e
  | _ => .ok 0

/-- The `opt(preceded(one_of("eE"), recognize(pair(opt(one_of("+-")),
digit1))))` fragment of `parse_double`. -/
def expPart (input : List Nat) : Except ParseError Nat :=
  match input with
  | [] => .error (.nom .incomplete)
  | b :: rest =>
    if b = 101 || b = 69 then
      match rest with
      | [] => .error (.nom .incomplete)
      | c :: _ =>
        let s := if c = 43 || c = 45 then 1 else 0
        match nomTakeWhile1 isDigit (rest.drop s) with
        | .ok (k, _) => .ok (1 + s + k)
        | .error (.nom .errorKind) => .ok 0
        | .error e => .error e
    else .ok 0

/-- `parse_double`: recognize `[+-]? digits (.digits)? ([eE][+-]?digits)?`,
then `crlf`, then `f64::from_str` on the recognized token (via the abstract
`FloatModel`; on tokens of this shape it cannot fail). -/
def parse_double (F : FloatModel) (input : List Nat) : PRes RespValue :=
  match input with
  | [] => .error (.nom .incomplete)
  | b0 :: _ =>
    let s0 := if b0 = 43 || b0 = 45 then 1 else 0
    match nomTakeWhile1 isDigit (input.drop s0) with
    | .error e => .error e
    | .ok (k1, _) =>
      match fracPart (input.drop (s0 + k1)) with
      | .error e => .error e
      | .ok k2 =>
        match expPart (input.drop (s0 + k1 + k2)) with
        | .error e => .error e
        | .ok k3 =>
          match nomCrlf (input.drop (s0 + k1 + k2 + k3)) with
          | .error e => .error e
          | .ok (k4, _) =>
            .ok (s0 + k1 + k2 + k3 + k4,
              .double (F.ofAscii (input.take (s0 + k1 + k2 + k3))))

/-- `HashSet::insert` during `parse_set`: a later duplicate (by the structural
equality above) is dropped; otherwise the element is appended in insertion
order. -/
def setInsert (acc : List RespValue) (v : RespValue) : List RespValue :=
  if acc.any fun w => respEq w v then acc else acc ++ [v]

/-- `HashMap::insert` during `parse_map`: an equal key replaces the stored
value (keeping the first key); otherwise the pair is appended. -/
def mapInsert (key val : RespValue) :
    List (RespValue × RespValue) → List (RespValue × RespValue)
  | [] => [(key, val)]
  | (k', v') :: rest =>
    if respEq k' key then (k', val) :: rest
    else (k', v') :: mapInsert key val rest

/-- Account for the tag byte consumed by `one_of` before dispatch. -/
def bump (r : PRes RespValue) : PRes RespValue :=
  r.map fun (k, v) => (1 + k, v)

theorem length_takeWhile_le (p : Nat → Bool) (l : List Nat) :
    (l.takeWhile p).length ≤ l.length := by
  induction l with
  | nil => simp [List.takeWhile]
  | cons a l ih =>
    simp only [List.takeWhile]
    cases p a
    · simp
    · simp
      omega

theorem nomCrlf_ok_len {input : List Nat} {k : Nat} {u : Unit}
    (h : nomCrlf input = .ok (k, u)) : k = 2 ∧ 2 ≤ input.length := by
  unfold nomCrlf at h
  split at h
  · rename_i l _
    simp only [Except.ok.injEq, Prod.mk.injEq] at h
    refine ⟨h.1.symm, by simp⟩
  · exact absurd h (by simp)
  · exact absurd h (by simp)
  · exact absurd h (by simp)

theorem nomTakeWhile1_ok {p : Nat → Bool} {input tok : List Nat} {k : Nat}
    (h : nomTakeWhile1 p input = .ok (k, tok)) :
    k = tok.length ∧ tok = input.takeWhile p ∧ 0 < k := by
  unfold nomTakeWhile1 at h
  split at h
  · exact absurd h (by simp)
  · split at h
    · exact absurd h (by simp)
    · rename_i h1 h2
      simp only [Except.ok.injEq, Prod.mk.injEq] at h
      obtain ⟨hk, htok⟩ := h
      subst hk
      subst htok
      refine ⟨rfl, rfl, ?_⟩
      simp only [List.isEmpty_iff] at h2
      cases hh : input.takeWhile p with
      | nil => exact absurd hh h2
      | cons a l => simp [hh]

/-- A successful `parse_usize` consumes at least three bytes and no more than
the input; needed for the termination of the recursive aggregate parsers. -/
theorem parse_usize_consumed {input : List Nat} {k n : Nat}
    (h : parse_usize input = .ok (k, n)) : 0 < k ∧ k ≤ input.length := by
  unfold parse_usize at h
  split at h
  · exact absurd h (by simp)
  · rename_i k1 ds h1
    split at h
    · exact absurd h (by simp)
    · rename_i k2 u h2
      split at h
      · simp only [Except.ok.injEq, Prod.mk.injEq] at h
        obtain ⟨hk, _⟩ := h
        subst hk
        obtain ⟨hk1, htw, hk1pos⟩ := nomTakeWhile1_ok h1
        obtain ⟨hk2, hlen2⟩ := nomCrlf_ok_len h2
        have h4 : k1 ≤ input.length := by
          rw [hk1, htw]
          exact length_takeWhile_le isDigit input
        have h3 : (input.drop k1).length = input.length - k1 := by simp
        omega
      · exact absurd h (by simp)

theorem lex_drop_le {a b x y : Nat} (hle : a ≤ b) (hlt : x < y) :
    Prod.Lex (· < ·) (· < ·) (a, x) (b, y) := by
  rw [Prod.lex_def]
  dsimp only
  omega

mutual

/-- `parse_resp_value` (`src/resp/parser.rs`): `one_of("+-:$*_#,(!=%~>")`
reads the tag byte (empty input is `Incomplete`, an unregistered byte an
`Error`), then dispatches to the per-type parser. -/
def parse_resp_value (F : FloatModel) (input : List Nat) : PRes RespValue :=
  match input with
  | [] => .error (.nom .incomplete)
  | b :: t =>
    match b with
    | 95 => bump (parse_null t)                  -- '_'
    | 35 => bump (parse_boolean t)               -- '#'
    | 58 => bump (parse_integer t)               -- ':'
    | 44 => bump (parse_double F t)              -- ','
    | 40 => bump (parse_big_number t)            -- '('
    | 43 => bump (parse_simple_string t)         -- '+'
    | 36 => bump (parse_bulk_string t)           -- '$'
    | 61 => bump (parse_verbatim_string t)       -- '='
    | 45 => bump (parse_simple_error t)          -- '-'
    | 33 => bump (parse_bulk_error t)            -- '!'
    | 42 => bump (parse_array F t)               -- '*'
    | 62 => bump (parse_push F t)                -- '>'
    | 126 => bump (parse_set F t)                -- '~'
    | 37 => bump (parse_map F t)                 -- '%'
    | _ => .error (.nom .errorKind)
  termination_by (input.length, 1)

/-- `parse_array_internal`: `parse_usize`, then a loop decoding that many
values in order. -/
def parse_array_internal (F : FloatModel) (input : List Nat) :
    PRes (List RespValue) :=
  match h : parse_usize input with
  | .error e => .error e
  | .ok (k, len) =>
    match parse_elements F len (input.drop k) with
    | .error e => .error e
    | .ok (k2, vs) => .ok (k + k2, vs)
  termination_by (input.length, 0)
  decreasing_by
    have hh := parse_usize_consumed h
    simp only [List.length_drop]
    exact Prod.Lex.left _ _ (by omega)

/-- The `for _ in 0..len { (input, value) = parse_resp_value(input)?; }` loop
of `parse_array_internal`. -/
def parse_elements (F : FloatModel) (n : Nat) (input : List Nat) :
    PRes (List RespValue) :=
  match n with
  | 0 => .ok (0, [])
  | m + 1 =>
    match parse_resp_value F input with
    | .error e => .error e
    | .ok (k, v) =>
      match parse_elements F m (input.drop k) with
      | .error e => .error e
      | .ok (k2, vs) => .ok (k + k2, v :: vs)
  termination_by (input.length, n + 2)
  decreasing_by
    · exact lex_drop_le (Nat.le_refl _) (by omega)
    · exact lex_drop_le (by simp only [List.length_drop]; omega) (by omega)

/-- `parse_array`. -/
def parse_array (F : FloatModel) (input : List Nat) : PRes RespValue :=
  (parse_array_internal F input).map fun (k, vs) => (k, .array vs)
  termination_by (input.length, 1)

/-- `parse_push`. -/
def parse_push (F : FloatModel) (input : List Nat) : PRes RespValue :=
  (parse_array_internal F input).map fun (k, vs) => (k, .push vs)
  termination_by (input.length, 1)

/-- `parse_set`: like an array, but inserting into a `HashSet`. -/
def parse_set (F : FloatModel) (input : List Nat) : PRes RespValue :=
  match h : parse_usize input with
  | .error e => .error e
  | .ok (k, len) =>
    match parse_set_elements F [] len (input.drop k) with
    | .error e => .error e
    | .ok (k2, s) => .ok (k + k2, .set s)
  termination_by (input.length, 0)
  decreasing_by
    have hh := parse_usize_consumed h
    simp only [List.length_drop]
    exact Prod.Lex.left _ _ (by omega)

/-- The element loop of `parse_set`, accumulating via `HashSet::insert`. -/
def parse_set_elements (F : FloatModel) (acc : List RespValue) (n : Nat)
    (input : List Nat) : PRes (List RespValue) :=
  match n with
  | 0 => .ok (0, acc)
  | m + 1 =>
    match parse_resp_value F input with
    | .error e => .error e
    | .ok (k, v) =>
      match parse_set_elements F (setInsert acc v) m (input.drop k) with
      | .error e => .error e
      | .ok (k2, s) => .ok (k + k2, s)
  termination_by (input.length, n + 2)
  decreasing_by
    · exact lex_drop_le (Nat.le_refl _) (by omega)
    · exact lex_drop_le (by simp only [List.length_drop]; omega) (by omega)

/-- `parse_map`: a length, then that many key/value pairs into a `HashMap`. -/
def parse_map (F : FloatModel) (input : List Nat) : PRes RespValue :=
  match h : parse_usize input with
  | .error e => .error e
  | .ok (k, len) =>
    match parse_map_elements F [] len (input.drop k) with
    | .error e => .error e
    | .ok (k2, m) => .ok (k + k2, .map m)
  termination_by (input.length, 0)
  decreasing_by
    have hh := parse_usize_consumed h
    simp only [List.length_drop]
    exact Prod.Lex.left _ _ (by omega)

/-- The pair loop of `parse_map`, accumulating via `HashMap::insert`. -/
def parse_map_elements (F : FloatModel)
    (acc : List (RespValue × RespValue)) (n : Nat) (input : List Nat) :
    PRes (List (RespValue × RespValue)) :=
  match n with
  | 0 => .ok (0, acc)
  | m + 1 =>
    match parse_resp_value F input with
    | .error e => .error e
    | .ok (k1, key) =>
      match parse_resp_value F (input.drop k1) with
      | .error e => .error e
      | .ok (k2, val) =>
        match parse_map_elements F (mapInsert key val acc) m
            (input.drop (k1 + k2)) with
        | .error e => .error e
        | .ok (k3, m') => .ok (k1 + k2 + k3, m')
  termination_by (input.length, n + 2)
  decreasing_by
    · exact lex_drop_le (Nat.le_refl _) (by omega)
    · exact lex_drop_le (by simp only [List.length_drop]; omega) (by omega)
    · exact lex_drop_le (by simp only [List.length_drop]; omega) (by omega)

end

/-- `AsyncReader<T>` (`src/types/async_reader.rs`): the buffered bytes plus
the not-yet-delivered network stream, modelled as the list of chunks that
successive `read_buf` calls will return (an empty trailing list is EOF; an
empty chunk is a zero-byte read, which `fill_buf` treats as EOF). -/
structure ReaderState where
  buffer : List Nat
  stream : List (List Nat)
  deriving DecidableEq, Repr

/-- All bytes still reachable from a reader state. -/
def totalBytes (s : ReaderState) : Nat :=
  s.buffer.length + (s.stream.map List.length).sum

/-- `AsyncReader::fill_buf`: clear an exhausted buffer (a no-op in the list
model), then `read_buf` appends the next chunk; `Ok(0)` or a closed stream
yields `false`. -/
def fillBuf (s : ReaderState) : Bool × ReaderState :=
  match s.stream with
  | [] => (false, s)
  | c :: cs =>
    if c.isEmpty then (false, { s with stream := cs })
    else (true, { buffer := s.buffer ++ c, stream := cs })

/-- `AsyncReader::next`: pop a buffered byte, refilling from the stream when
the buffer is empty; `None` when the stream is finished. -/
def readerNext (s : ReaderState) : Option Nat × ReaderState :=
  match s.buffer with
  | b :: t => (some b, { s with buffer := t })
  | [] =>
    match fillBuf s with
    | (true, s1) =>
      match s1.buffer with
      | b :: t => (some b, { s1 with buffer := t })
      | [] => (none, s1)
    | (false, s1) => (none, s1)

theorem fillBuf_true {s s1 : ReaderState} (h : fillBuf s = (true, s1)) :
    s1.stream.length < s.stream.length := by
  obtain ⟨buf, st⟩ := s
  cases st with
  | nil => simp [fillBuf] at h
  | cons c cs =>
    by_cases hc : c.isEmpty
    · simp [fillBuf, hc] at h
    · simp only [fillBuf, hc, if_neg, Bool.false_eq_true, not_false_iff,
        ite_false, Prod.mk.injEq, true_and] at h
      rw [← h]
      simp

theorem readerNext_some {s s1 : ReaderState} {b : Nat}
    (h : readerNext s = (some b, s1)) : totalBytes s1 < totalBytes s := by
  obtain ⟨buf, st⟩ := s
  cases buf with
  | cons x t =>
    simp only [readerNext, Prod.mk.injEq, Option.some.injEq] at h
    rw [← h.2]
    simp [totalBytes]
  | nil =>
    cases st with
    | nil => simp [readerNext, fillBuf] at h
    | cons c cs =>
      by_cases hc : c.isEmpty
      · simp [readerNext, fillBuf, hc] at h
      · cases c with
        | nil => simp at hc
        | cons x t =>
          simp only [readerNext, fillBuf, List.isEmpty_cons, Bool.false_eq_true,
            not_false_iff, ite_false, List.nil_append, Prod.mk.injEq,
            Option.some.injEq] at h
          rw [← h.2]
          simp only [totalBytes, List.length_cons, List.length_nil,
            List.map_cons, List.sum_cons]
          omega

/-- `AsyncReader::assert_newline`: two `next` calls checking `\r` then `\n`;
`&&` short-circuits, so a failed first byte consumes only that byte. -/
def assertNewline (s : ReaderState) : Bool × ReaderState :=
  match readerNext s with
  | (some 13, s1) =>
    match readerNext s1 with
    | (some 10, s2) => (true, s2)
    | (_, s2) => (false, s2)
  | (_, s1) => (false, s1)

/-- `AsyncReader::next_line`: accumulate bytes until a bare `\r`, then require
`\n`; `None` on stream end or a missing `\n`. -/
def nextLineLoop (acc : List Nat) (s : ReaderState) :
    Option (List Nat) × ReaderState :=
  match hn : readerNext s with
  | (some b, s1) =>
    if b = 13 then
      match readerNext s1 with
      | (some c, s2) => if c = 10 then (some acc, s2) else (none, s2)
      | (none, s2) => (none, s2)
    else nextLineLoop (acc ++ [b]) s1
  | (none, s1) => (none, s1)
  termination_by totalBytes s
  decreasing_by exact readerNext_some hn

/-- Outcome of `AsyncReader::take`. -/
inductive TakeRes where
  | ok (bytes : List Nat) (s : ReaderState)
  | eof (s : ReaderState)
  | panicked
  deriving DecidableEq, Repr

/-- The loop of `AsyncReader::take` (`src/types/async_reader.rs:110-129`):
`bytes` is only `Vec::with_capacity(n)` — its length stays `0` — and
`bytes.copy_from_slice(slice)` panics whenever the slice lengths differ, i.e.
whenever `to_copy = min(available, n - copied) ≠ 0`; the buffer is never
advanced.  With `to_copy = 0` the loop either returns the (empty) vector when
`copied == n`, or refills and retries. -/
def readerTakeLoop (n copied : Nat) (s : ReaderState) : TakeRes :=
  if Nat.min s.buffer.length (n - copied) ≠ 0 then .panicked
  else if copied = n then .ok [] s
  else
    match hf : fillBuf s with
    | (false, s1) => .eof s1
    | (true, s1) => readerTakeLoop n copied s1
  termination_by s.stream.length
  decreasing_by exact fillBuf_true hf

/-- `AsyncReader::take(n)`. -/
def readerTake (s : ReaderState) (n : Nat) : TakeRes :=
  readerTakeLoop n 0 s

/-- `Checkpoint::new`: clones the buffer (`BytesMut::clone` copies the data);
the snapshot is that byte list. -/
def checkpointNew (s : ReaderState) : List Nat := s.buffer

/-- `Drop for Checkpoint`: the reader's buffer is overwritten with the
snapshot; whatever the stream delivered meanwhile stays consumed.  (The code
has no commit operation: `initial` is only ever taken here.) -/
def checkpointDrop (snapshot : List Nat) (s : ReaderState) : ReaderState :=
  { s with buffer := snapshot }

/-- `k` speculative `Checkpoint::next` calls (each delegates to
`AsyncReader::next`). -/
def specRun (s : ReaderState) : Nat → ReaderState
  | 0 => s
  | k + 1 => specRun (readerNext s).2 k

/-- Every byte a sequence of `next` calls can still deliver. -/
def readAll (s : ReaderState) : List Nat :=
  match hn : readerNext s with
  | (some b, s1) => b :: readAll s1
  | (none, _) => []
  termination_by totalBytes s
  decreasing_by exact readerNext_some hn

/-- `RespReaderError` (`src/resp/resp_reader.rs`). -/
inductive RespReaderError where
  | unimplemented
  | bufferFinished
  | missingNewline
  | nonUtf8String
  | unknownDataType (c : Nat)
  | lengthOverflowed
  | invalidCharInLength (c : Nat)
  | aggregate (errors : List RespReaderError)
  deriving Repr

/-- One digit step of `RespReader::parse_length`:
`usize::checked_mul(len, 10)` then `usize::checked_add(shifted, digit)`, each
`None` (i.e. a result past `usize::MAX = 2^64 - 1`) becoming
`LengthOverflowed`. -/
def parseLengthStep (len b : Nat) : Except RespReaderError Nat :=
  if len * 10 ≥ 2 ^ 64 then .error .lengthOverflowed
  else if len * 10 + (b - 48) ≥ 2 ^ 64 then .error .lengthOverflowed
  else .ok (len * 10 + (b - 48))

/-- `RespReader::parse_length`: the digit loop with checked arithmetic, then
the `\n` check after the `\r` that terminates the loop. -/
def parseLengthLoop (len : Nat) (s : ReaderState) :
    Except RespReaderError Nat × ReaderState :=
  match hn : readerNext s with
  | (some b, s1) =>
    if b = 13 then
      match readerNext s1 with
      | (some c, s2) => if c = 10 then (.ok len, s2) else (.error .missingNewline, s2)
      | (none, s2) => (.error .missingNewline, s2)
    else if isDigit b then
      match parseLengthStep len b with
      | .error e => (.error e, s1)
      | .ok len' => parseLengthLoop len' s1
    else (.error (.invalidCharInLength b), s1)
  | (none, s1) => (.error .bufferFinished, s1)
  termination_by totalBytes s
  decreasing_by exact readerNext_some hn

/-- `RespReader::parse_length` starts with `len = 0`. -/
def parseLength (s : ReaderState) : Except RespReaderError Nat × ReaderState :=
  parseLengthLoop 0 s

/-- Outcome of `RespReader::next`: a value, an error (each with the reader
state left behind), or a panic bubbling out of `take`. -/
inductive RResult where
  | ok (v : RespValue) (s : ReaderState)
  | err (e : RespReaderError) (s : ReaderState)
  | panicked

/-- `RespReader::next` (`src/resp/resp_reader.rs:91-152`): reads the tag byte
and dispatches.  Only `Null`, `SimpleString`, `BulkString` and `Array` are
implemented; the `Array` arm parses the length and returns `Array(vec![])` —
the recursive element decode is commented out in the source; every other
recognized tag consumes a line and returns `Unimplemented`; an unrecognized
tag consumes a line and returns `UnknownDataType`. -/
def respNext (s : ReaderState) : RResult :=
  match readerNext s with
  | (none, s0) => .err .bufferFinished s0
  | (some b, s0) =>
    match respDataTypeOfByte b with
    | some .null =>
      match assertNewline s0 with
      | (true, s1) => .ok .null s1
      | (false, s1) => .err .missingNewline s1
    | some .simpleString =>
      match nextLineLoop [] s0 with
      | (some bytes, s1) =>
        if utf8Valid bytes then .ok (.simpleString bytes) s1
        else .err .nonUtf8String s1
      | (none, s1) => .err .missingNewline s1
    | some .bulkString =>
      match parseLength s0 with
      | (.error e, s1) => .err e s1
      | (.ok n, s1) =>
        match readerTake s1 n with
        | .panicked => .panicked
        | .eof s2 => .err .bufferFinished s2
        | .ok bytes s2 =>
          match assertNewline s2 with
          | (false, s3) => .err .missingNewline s3
          | (true, s3) =>
            if utf8Valid bytes then .ok (.bulkString bytes) s3
            else .err .nonUtf8String s3
    | some .array =>
      match parseLength s0 with
      | (.error e, s1) => .err e s1
      | (.ok _, s1) => .ok (.array []) s1
    | some _ => .err .unimplemented (nextLineLoop [] s0).2
    | none => .err (.unknownDataType b) (nextLineLoop [] s0).2

theorem natAscii_all_digits (n : Nat) : ∀ b ∈ natAscii n, isDigit b = true := by
  intro b hb
  unfold natAscii at hb
  split at hb
  · simp at hb
    simp [hb, isDigit]
  · simp only [List.mem_reverse, List.mem_map] at hb
    obtain ⟨d, hd, hbd⟩ := hb
    have hlt : d < 10 := Nat.digits_lt_base (by norm_num) hd
    subst hbd
    simp only [isDigit, Bool.and_eq_true, decide_eq_true_eq]
    omega

theorem natAscii_ne_nil (n : Nat) : natAscii n ≠ [] := by
  unfold natAscii
  split
  · simp
  · simp only [ne_eq, List.reverse_eq_nil_iff, List.map_eq_nil_iff]
    exact Nat.digits_ne_nil_iff_ne_zero.mpr (by assumption)

theorem digitsValFrom_append (acc : Nat) (l : List Nat) (d : Nat) :
    digitsValFrom acc (l ++ [d]) = digitsValFrom acc l * 10 + (d - 48) := by
  simp [digitsValFrom, List.foldl_append]

theorem digitsValFrom_rev_digits (acc : Nat) (D : List Nat) :
    digitsValFrom acc ((D.map (· + 48)).reverse)
      = acc * 10 ^ D.length + Nat.ofDigits 10 D := by
  induction D generalizing acc with
  | nil => simp [digitsValFrom, Nat.ofDigits]
  | cons d D ih =>
    simp only [List.map_cons, List.reverse_cons, digitsValFrom_append, ih,
      Nat.ofDigits_cons, List.length_cons]
    have hd : d + 48 - 48 = d := by omega
    rw [hd]
    ring

theorem digitsValFrom_natAscii (n : Nat) : digitsValFrom 0 (natAscii n) = n := by
  unfold natAscii
  split
  · simp [digitsValFrom]
    omega
  · have h := digitsValFrom_rev_digits 0 (Nat.digits 10 n)
    rw [h, Nat.ofDigits_digits]
    ring

theorem takeWhile_append_all {p : Nat → Bool} {l : List Nat}
    (hl : ∀ b ∈ l, p b = true) {c : Nat} (hc : p c = false) (r : List Nat) :
    (l ++ c :: r).takeWhile p = l ∧ (l ++ c :: r).dropWhile p = c :: r := by
  induction l with
  | nil => simp [List.takeWhile_cons, List.dropWhile_cons, hc]
  | cons a t ih =>
    have ha := hl a (by simp)
    have ht : ∀ b ∈ t, p b = true := fun b hb => hl b (by simp [hb])
    obtain ⟨h1, h2⟩ := ih ht
    simp [List.takeWhile_cons, List.dropWhile_cons, ha, h1, h2]

theorem nomTakeWhile1_exact {p : Nat → Bool} {l : List Nat}
    (hl : ∀ b ∈ l, p b = true) (hne : l ≠ []) {c : Nat} (hc : p c = false)
    (r : List Nat) : nomTakeWhile1 p (l ++ c :: r) = .ok (l.length, l) := by
  obtain ⟨h1, h2⟩ := takeWhile_append_all hl hc r
  unfold nomTakeWhile1
  rw [h1, h2]
  simp [hne]

theorem drop_cons_append (l r : List Nat) (a b : Nat) :
    (l ++ a :: b :: r).drop (l.length + 2) = r := by
  have : l ++ a :: b :: r = (l ++ [a, b]) ++ r := by simp
  rw [this]
  exact List.drop_left' (by simp)

theorem parse_usize_exact {n : Nat} (hn : n < 2 ^ 64) (r : List Nat) :
    parse_usize (natAscii n ++ 13 :: 10 :: r)
      = .ok ((natAscii n).length + 2, n) := by
  unfold parse_usize
  rw [@nomTakeWhile1_exact isDigit (natAscii n) (natAscii_all_digits n)
    (natAscii_ne_nil n) 13 (by decide) (10 :: r)]
  simp only [List.drop_left, nomCrlf, digitsValFrom_natAscii, hn, if_true]

theorem lineTok_exact {s : List Nat} (hs : ∀ b ∈ s, notCrLfByte b = true)
    (hne : s ≠ []) (r : List Nat) :
    lineTok (s ++ 13 :: 10 :: r) = .ok (s.length + 2, s) := by
  unfold lineTok
  rw [@nomTakeWhile1_exact notCrLfByte s hs hne 13 (by decide) (10 :: r)]
  simp only [List.drop_left, nomCrlf]

theorem nomTake_exact (s r : List Nat) :
    nomTake s.length (s ++ r) = .ok (s.length, s) := by
  unfold nomTake
  rw [List.take_left]
  simp

theorem length_bytes_exact {s : List Nat} (hs : s.length < 2 ^ 64)
    (r : List Nat) :
    length_bytes (natAscii s.length ++ 13 :: 10 :: (s ++ 13 :: 10 :: r))
      = .ok ((natAscii s.length).length + 2 + s.length + 2, s) := by
  have hd : (natAscii s.length ++ 13 :: 10 :: (s ++ 13 :: 10 :: r)).drop
      ((natAscii s.length).length + 2 + s.length) = 13 :: 10 :: r := by
    have he : natAscii s.length ++ 13 :: 10 :: (s ++ 13 :: 10 :: r)
        = (natAscii s.length ++ [13, 10] ++ s) ++ 13 :: 10 :: r := by simp
    rw [he]
    refine List.drop_left' ?_
    simp only [List.length_append, List.length_cons, List.length_nil]
  unfold length_bytes
  rw [parse_usize_exact hs (s ++ 13 :: 10 :: r)]
  simp only [drop_cons_append, nomTake_exact s (13 :: 10 :: r), hd, nomCrlf]

theorem parse_null_exact (r : List Nat) :
    parse_null (13 :: 10 :: r) = .ok (2, .null) := rfl

theorem parse_boolean_exact (b : Bool) (r : List Nat) :
    parse_boolean ((if b then 116 else 102) :: 13 :: 10 :: r)
      = .ok (3, .boolean b) := by
  cases b
  · rfl
  · rfl

theorem parse_simple_string_exact {s : List Nat}
    (hs : ∀ b ∈ s, notCrLfByte b = true) (hne : s ≠ [])
    (hu : utf8Valid s = true) (r : List Nat) :
    parse_simple_string (s ++ 13 :: 10 :: r)
      = .ok (s.length + 2, .simpleString s) := by
  unfold parse_simple_string
  rw [lineTok_exact hs hne r]
  simp [hu]

theorem parse_simple_error_exact {s : List Nat}
    (hs : ∀ b ∈ s, notCrLfByte b = true) (hne : s ≠ [])
    (hu : utf8Valid s = true) (r : List Nat) :
    parse_simple_error (s ++ 13 :: 10 :: r)
      = .ok (s.length + 2, .simpleError s) := by
  unfold parse_simple_error
  rw [lineTok_exact hs hne r]
  simp [hu]

theorem parse_bulk_string_exact {s : List Nat} (hu : utf8Valid s = true)
    (hs : s.length < 2 ^ 64) (r : List Nat) :
    parse_bulk_string (natAscii s.length ++ 13 :: 10 :: (s ++ 13 :: 10 :: r))
      = .ok ((natAscii s.length).length + 2 + s.length + 2, .bulkString s) := by
  unfold parse_bulk_string
  rw [length_bytes_exact hs r]
  simp [hu]

theorem parse_bulk_error_exact {s : List Nat} (hu : utf8Valid s = true)
    (hs : s.length < 2 ^ 64) (r : List Nat) :
    parse_bulk_error (natAscii s.length ++ 13 :: 10 :: (s ++ 13 :: 10 :: r))
      = .ok ((natAscii s.length).length + 2 + s.length + 2, .bulkError s) := by
  unfold parse_bulk_error
  rw [length_bytes_exact hs r]
  simp [hu]

theorem parse_verbatim_string_exact {enc s : List Nat} (h3 : enc.length = 3)
    (hue : utf8Valid enc = true) (hus : utf8Valid s = true)
    (hlen : 3 + 1 + s.length < 2 ^ 64) (r : List Nat) :
    parse_verbatim_string (natAscii (3 + 1 + s.length) ++ 13 :: 10 ::
        ((enc ++ 58 :: s) ++ 13 :: 10 :: r))
      = .ok ((natAscii (3 + 1 + s.length)).length + 2 + (3 + 1 + s.length) + 2,
          .verbatimString enc s) := by
  have hl : (enc ++ 58 :: s).length = 3 + 1 + s.length := by
    simp [h3]
    omega
  have hlb := @length_bytes_exact (enc ++ 58 :: s) (by rw [hl]; exact hlen) r
  rw [hl] at hlb
  unfold parse_verbatim_string
  rw [hlb]
  obtain ⟨a, b2, c, henc⟩ := List.length_eq_three.mp h3
  subst henc
  simp only [List.cons_append, List.nil_append]
  simp [hue, hus]

theorem intToken_digits {l : List Nat} (hl : ∀ b ∈ l, isDigit b = true)
    (hne : l ≠ []) (r : List Nat) :
    intToken (l ++ 13 :: 10 :: r) = .ok (l.length, l) := by
  unfold intToken
  rw [@nomTakeWhile1_exact isDigit l hl hne 13 (by decide) (10 :: r)]

theorem intToken_neg {l : List Nat} (hl : ∀ b ∈ l, isDigit b = true)
    (hne : l ≠ []) (r : List Nat) :
    intToken (45 :: (l ++ 13 :: 10 :: r)) = .ok (1 + l.length, 45 :: l) := by
  have h1 : nomTakeWhile1 isDigit (45 :: (l ++ 13 :: 10 :: r))
      = .error (.nom .errorKind) := by
    unfold nomTakeWhile1
    simp [List.takeWhile_cons, List.dropWhile_cons, isDigit]
  have h2 := @nomTakeWhile1_exact isDigit l hl hne 13 (by decide) (10 :: r)
  unfold intToken
  simp only [h1, h2]

theorem i64Val_digits {ds : List Nat} (hds : ∀ b ∈ ds, isDigit b = true) :
    i64Val ds = i64Check ((digitsValFrom 0 ds : Nat) : Int) := by
  cases ds with
  | nil => rfl
  | cons d t =>
    have hd := hds d (by simp)
    simp only [isDigit, Bool.and_eq_true, decide_eq_true_eq] at hd
    have h45 : d ≠ 45 := by omega
    have h43 : d ≠ 43 := by omega
    simp [i64Val, h45, h43]

theorem i64Check_in_range {i : Int} (hlo : -(2 ^ 63) ≤ i) (hhi : i < 2 ^ 63) :
    i64Check i = some i := by
  simp only [i64Check, Bool.and_eq_true, decide_eq_true_eq]
  rw [if_pos ⟨hlo, hhi⟩]

theorem parse_i64_exact {i : Int} (hlo : -(2 ^ 63) ≤ i) (hhi : i < 2 ^ 63)
    (r : List Nat) :
    parse_i64 (intAscii i ++ 13 :: 10 :: r)
      = .ok ((intAscii i).length + 2, i) := by
  by_cases hneg : i < 0
  · have he : intAscii i = 45 :: natAscii i.natAbs := by
      simp [intAscii, hneg]
    have htok := intToken_neg (natAscii_all_digits i.natAbs)
      (natAscii_ne_nil i.natAbs) r
    have hdrop : (45 :: (natAscii i.natAbs ++ 13 :: 10 :: r)).drop
        (1 + (natAscii i.natAbs).length) = 13 :: 10 :: r := by
      rw [Nat.add_comm, List.drop_succ_cons, List.drop_left]
    have habs : ((i.natAbs : Nat) : Int) = -i := by omega
    rw [he]
    unfold parse_i64
    simp only [List.cons_append, htok, hdrop, nomCrlf, i64Val,
      digitsValFrom_natAscii]
    simp only [if_true, reduceIte, habs, neg_neg, i64Check_in_range hlo hhi]
    simp only [Except.ok.injEq, Prod.mk.injEq, List.length_cons, and_true]
    omega
  · push_neg at hneg
    have he : intAscii i = natAscii i.toNat := by
      simp [intAscii, Int.not_lt.mpr hneg]
    have htok := intToken_digits (natAscii_all_digits i.toNat)
      (natAscii_ne_nil i.toNat) r
    have htn : ((i.toNat : Nat) : Int) = i := Int.toNat_of_nonneg hneg
    rw [he]
    unfold parse_i64
    simp only [htok, List.drop_left, nomCrlf,
      i64Val_digits (natAscii_all_digits i.toNat), digitsValFrom_natAscii,
      htn, i64Check_in_range hlo hhi]

theorem parse_integer_exact {i : Int} (hlo : -(2 ^ 63) ≤ i) (hhi : i < 2 ^ 63)
    (r : List Nat) :
    parse_integer (intAscii i ++ 13 :: 10 :: r)
      = .ok ((intAscii i).length + 2, .integer i) := by
  unfold parse_integer
  rw [parse_i64_exact hlo hhi r]
  rfl

theorem parse_big_number_exact {s : List Nat} (hs : signedDigits s = true)
    (r : List Nat) :
    parse_big_number (s ++ 13 :: 10 :: r)
      = .ok (s.length + 2, .bigNumber s) := by
  cases s with
  | nil => simp [signedDigits] at hs
  | cons b rest =>
    by_cases hb : b = 43 ∨ b = 45
    · have hb' : (b = 43 || b = 45) = true := by
        rcases hb with hb | hb
        · simp [hb]
        · simp [hb]
      rw [signedDigits] at hs
      rw [if_pos hb'] at hs
      simp only [Bool.and_eq_true, Bool.not_eq_true', List.isEmpty_eq_false,
        List.all_eq_true] at hs
      obtain ⟨hne, hall⟩ := hs
      have htw := @nomTakeWhile1_exact isDigit rest hall hne 13 (by decide)
        (10 :: r)
      have hdrop : (b :: (rest ++ 13 :: 10 :: r)).drop (1 + rest.length)
          = 13 :: 10 :: r := by
        rw [Nat.add_comm, List.drop_succ_cons, List.drop_left]
      have htake : (b :: (rest ++ 13 :: 10 :: r)).take (1 + rest.length)
          = b :: rest := by
        rw [Nat.add_comm, List.take_succ_cons, List.take_left]
      unfold parse_big_number
      simp only [List.cons_append, hb', if_true, List.drop_succ_cons,
        List.drop_zero, htw, hdrop, htake, nomCrlf]
      simp only [Except.ok.injEq, Prod.mk.injEq, List.length_cons, and_true]
      omega
    · push_neg at hb
      rw [signedDigits] at hs
      rw [if_neg (by simp [hb.1, hb.2])] at hs
      simp only [Bool.and_eq_true, Bool.not_eq_true', List.isEmpty_eq_false,
        List.all_eq_true] at hs
      obtain ⟨hne, hall⟩ := hs
      have hb' : (b = 43 || b = 45) = false := by simp [hb.1, hb.2]
      have htw := @nomTakeWhile1_exact isDigit (b :: rest) hall hne 13
        (by decide) (10 :: r)
      simp only [List.cons_append, List.length_cons] at htw
      have hdrop : (b :: (rest ++ 13 :: 10 :: r)).drop (0 + (rest.length + 1))
          = 13 :: 10 :: r := by
        rw [Nat.zero_add, List.drop_succ_cons, List.drop_left]
      have htake : (b :: (rest ++ 13 :: 10 :: r)).take (0 + (rest.length + 1))
          = b :: rest := by
        rw [Nat.zero_add, List.take_succ_cons, List.take_left]
      unfold parse_big_number
      simp only [List.cons_append, hb', if_false, Bool.false_eq_true,
        List.drop_zero, htw, hdrop, htake, nomCrlf]
      simp only [Except.ok.injEq, Prod.mk.injEq, List.length_cons, and_true]
      omega

theorem WfList_mem {xs : List RespValue} (h : WfList xs = true) :
    ∀ x ∈ xs, Wf x = true := by
  induction xs with
  | nil => intro x hx; simp at hx
  | cons a t ih =>
    rw [WfList, Bool.and_eq_true] at h
    intro x hx
    rcases List.mem_cons.mp hx with hx | hx
    · subst hx; exact h.1
    · exact ih h.2 x hx

/-- The element loop of `parse_array_internal` inverts the element-wise
encoder: given that every element round-trips, a sequence of `n = xs.length`
encoded values is decoded back to `xs` in order. -/
theorem parse_elements_append {F : FloatModel} {xs : List RespValue}
    (IH : ∀ x ∈ xs, ∀ r', parse_resp_value F (encode F x ++ r')
      = .ok ((encode F x).length, x)) (r : List Nat) :
    parse_elements F xs.length (encodeList F xs ++ r)
      = .ok ((encodeList F xs).length, xs) := by
  induction xs with
  | nil =>
    simp [parse_elements, encodeList]
  | cons x xs ih =>
    have h1 := IH x (by simp) (encodeList F xs ++ r)
    have ih2 := ih fun y hy r' => IH y (by simp [hy]) r'
    rw [encodeList]
    rw [show (x :: xs).length = xs.length + 1 from rfl]
    rw [parse_elements]
    rw [List.append_assoc, h1]
    simp only [List.drop_left, ih2, List.length_append]

/-- Non-dependent unfolding of `parse_array_internal` once the length parse
is known to succeed. -/
theorem parse_array_internal_ok (F : FloatModel) {input : List Nat} {k n : Nat}
    (hus : parse_usize input = .ok (k, n)) :
    parse_array_internal F input =
      (parse_elements F n (input.drop k)).map fun p => (k + p.1, p.2) := by
  unfold parse_array_internal
  split
  · rename_i e h
    rw [hus] at h
    cases h
  · rename_i k' n' h
    rw [hus] at h
    injection h with h1
    injection h1 with hk hn
    subst hk
    subst hn
    cases hpe : parse_elements F n (input.drop k) with
    | error e => simp [Except.map]
    | ok p => cases p
              simp [Except.map]

theorem parse_encode_core {F : FloatModel} :
    ∀ N : Nat, ∀ v : RespValue, sizeOf v ≤ N → Wf v = true →
      ∀ r : List Nat,
        parse_resp_value F (encode F v ++ r) = .ok ((encode F v).length, v) := by
  intro N
  induction N with
  | zero =>
    intro v hsz
    exact absurd hsz (by cases v <;> simp)
  | succ N ih =>
    intro v hsz hwf r
    cases v with
    | null =>
      simp only [encode, RespDataType.tagByte, List.cons_append,
        List.nil_append, parse_resp_value, parse_null_exact, bump,
        Except.map, List.length_cons, List.length_nil]
    | boolean b =>
      simp only [encode, RespDataType.tagByte, List.cons_append,
        List.nil_append, parse_resp_value, parse_boolean_exact, bump,
        Except.map, List.length_cons, List.length_nil]
    | integer i =>
      simp only [Wf, Bool.and_eq_true, decide_eq_true_eq] at hwf
      simp only [encode, RespDataType.tagByte, List.cons_append,
        List.append_assoc, List.nil_append, parse_resp_value,
        parse_integer_exact hwf.1 hwf.2 r, bump, Except.map,
        List.length_cons, List.length_append, List.length_nil,
        Except.ok.injEq, Prod.mk.injEq, and_true]
      omega
    | double d => simp [Wf] at hwf
    | bigNumber s =>
      rw [Wf] at hwf
      simp only [encode, RespDataType.tagByte, List.cons_append,
        List.append_assoc, List.nil_append, parse_resp_value,
        parse_big_number_exact hwf r, bump, Except.map, List.length_cons,
        List.length_append, List.length_nil, Except.ok.injEq,
        Prod.mk.injEq, and_true]
      omega
    | simpleString s =>
      simp only [Wf, Bool.and_eq_true, Bool.not_eq_true',
        List.isEmpty_eq_false, List.all_eq_true] at hwf
      obtain ⟨⟨hne, hall⟩, hu⟩ := hwf
      simp only [encode, RespDataType.tagByte, List.cons_append,
        List.append_assoc, List.nil_append, parse_resp_value,
        parse_simple_string_exact hall hne hu r, bump, Except.map,
        List.length_cons, List.length_append, List.length_nil,
        Except.ok.injEq, Prod.mk.injEq, and_true]
      omega
    | simpleError s =>
      simp only [Wf, Bool.and_eq_true, Bool.not_eq_true',
        List.isEmpty_eq_false, List.all_eq_true] at hwf
      obtain ⟨⟨hne, hall⟩, hu⟩ := hwf
      simp only [encode, RespDataType.tagByte, List.cons_append,
        List.append_assoc, List.nil_append, parse_resp_value,
        parse_simple_error_exact hall hne hu r, bump, Except.map,
        List.length_cons, List.length_append, List.length_nil,
        Except.ok.injEq, Prod.mk.injEq, and_true]
      omega
    | bulkString s =>
      simp only [Wf, Bool.and_eq_true, decide_eq_true_eq] at hwf
      obtain ⟨hu, hlen⟩ := hwf
      have hb := parse_bulk_string_exact hu hlen r
      simp only [encode, RespDataType.tagByte, List.cons_append,
        List.append_assoc, List.nil_append, List.cons_append] at hb ⊢
      simp only [parse_resp_value, hb, bump, Except.map, List.length_cons,
        List.length_append, List.length_nil, Except.ok.injEq,
        Prod.mk.injEq, and_true]
      omega
    | bulkError s =>
      simp only [Wf, Bool.and_eq_true, decide_eq_true_eq] at hwf
      obtain ⟨hu, hlen⟩ := hwf
      have hb := parse_bulk_error_exact hu hlen r
      simp only [encode, RespDataType.tagByte, List.cons_append,
        List.append_assoc, List.nil_append, List.cons_append] at hb ⊢
      simp only [parse_resp_value, hb, bump, Except.map, List.length_cons,
        List.length_append, List.length_nil, Except.ok.injEq,
        Prod.mk.injEq, and_true]
      omega
    | verbatimString enc s =>
      simp only [Wf, Bool.and_eq_true, decide_eq_true_eq] at hwf
      obtain ⟨⟨⟨h3, hue⟩, hus⟩, hlen⟩ := hwf
      have hb := parse_verbatim_string_exact h3 hue hus hlen r
      simp only [List.cons_append, List.append_assoc, List.nil_append] at hb ⊢
      simp only [encode, RespDataType.tagByte, List.cons_append,
        List.append_assoc, List.nil_append, parse_resp_value, hb, bump,
        Except.map, List.length_cons, List.length_append, List.length_nil,
        Except.ok.injEq, Prod.mk.injEq, and_true]
      omega
    | array xs =>
      simp only [Wf, Bool.and_eq_true, decide_eq_true_eq] at hwf
      obtain ⟨hlen, hwl⟩ := hwf
      have hszl : sizeOf xs ≤ N := by
        have : sizeOf (RespValue.array xs) = 1 + sizeOf xs := by simp
        omega
      have helems : ∀ x ∈ xs, ∀ r',
          parse_resp_value F (encode F x ++ r') = .ok ((encode F x).length, x) := by
        intro x hx r'
        have hxlt : sizeOf x < sizeOf xs := List.sizeOf_lt_of_mem hx
        exact ih x (by omega) (WfList_mem hwl x hx) r'
      have hpe := parse_elements_append helems r
      have hus := parse_usize_exact hlen (encodeList F xs ++ r)
      have hai := parse_array_internal_ok F hus
      simp only [encode, RespDataType.tagByte, List.cons_append,
        List.append_assoc, List.nil_append, parse_resp_value, parse_array,
        hai, drop_cons_append, hpe, bump, Except.map,
        List.length_cons, List.length_append, List.length_nil,
        Except.ok.injEq, Prod.mk.injEq, and_true]
      omega
    | push xs =>
      simp only [Wf, Bool.and_eq_true, decide_eq_true_eq] at hwf
      obtain ⟨hlen, hwl⟩ := hwf
      have hszl : sizeOf xs ≤ N := by
        have : sizeOf (RespValue.push xs) = 1 + sizeOf xs := by simp
        omega
      have helems : ∀ x ∈ xs, ∀ r',
          parse_resp_value F (encode F x ++ r') = .ok ((encode F x).length, x) := by
        intro x hx r'
        have hxlt : sizeOf x < sizeOf xs := List.sizeOf_lt_of_mem hx
        exact ih x (by omega) (WfList_mem hwl x hx) r'
      have hpe := parse_elements_append helems r
      have hus := parse_usize_exact hlen (encodeList F xs ++ r)
      have hai := parse_array_internal_ok F hus
      simp only [encode, RespDataType.tagByte, List.cons_append,
        List.append_assoc, List.nil_append, parse_resp_value, parse_push,
        hai, drop_cons_append, hpe, bump, Except.map,
        List.length_cons, List.length_append, List.length_nil,
        Except.ok.injEq, Prod.mk.injEq, and_true]
      omega
    | set xs => simp [Wf] at hwf
    | map xs => simp [Wf] at hwf

/-- Any all-digit token whose value exceeds `usize::MAX` trips one of the two
checked operations in `parse_length`'s digit loop before the terminator is
reached. -/
theorem parseLengthLoop_overflow :
    ∀ (ds : List Nat) (acc : Nat) (r : List Nat),
      (∀ b ∈ ds, isDigit b = true) → acc < 2 ^ 64 →
      2 ^ 64 ≤ digitsValFrom acc ds →
      (parseLengthLoop acc ⟨ds ++ 13 :: 10 :: r, []⟩).1
        = .error .lengthOverflowed := by
  intro ds
  induction ds with
  | nil =>
    intro acc r _ hacc hov
    exfalso
    simp [digitsValFrom] at hov
    omega
  | cons d t ih =>
    intro acc r hd hacc hov
    have hdig := hd d (by simp)
    simp only [isDigit, Bool.and_eq_true, decide_eq_true_eq] at hdig
    have hd13 : d ≠ 13 := by omega
    have hfold : digitsValFrom acc (d :: t)
        = digitsValFrom (acc * 10 + (d - 48)) t := rfl
    rw [List.cons_append, parseLengthLoop]
    simp only [readerNext, hd13, if_false, isDigit, Bool.and_eq_true,
      decide_eq_true_eq]
    rw [if_pos hdig]
    by_cases h1 : acc * 10 ≥ 2 ^ 64
    · rw [parseLengthStep, if_pos h1]
    · rw [parseLengthStep, if_neg h1]
      by_cases h2 : acc * 10 + (d - 48) ≥ 2 ^ 64
      · rw [if_pos h2]
      · rw [if_neg h2]
        exact ih (acc * 10 + (d - 48)) r (fun b hb => hd b (by simp [hb]))
          (by omega) (hfold ▸ hov)

/-- `next_line` on a buffer holding a CR-free body followed by `CRLF` returns
the body and leaves the reader right after the terminator. -/
theorem nextLineLoop_crlf :
    ∀ (L acc rest : List Nat), 13 ∉ L →
      nextLineLoop acc ⟨L ++ 13 :: 10 :: rest, []⟩
        = (some (acc ++ L), ⟨rest, []⟩) := by
  intro L
  induction L with
  | nil =>
    intro acc rest _
    rw [List.nil_append, nextLineLoop]
    simp [readerNext]
  | cons x t ih =>
    intro acc rest hL
    have hx : x ≠ 13 := fun h => hL (by simp [h])
    rw [List.cons_append, nextLineLoop]
    simp only [readerNext]
    rw [if_neg hx]
    rw [ih (acc ++ [x]) rest (fun h => hL (by simp [h]))]
    simp

/-- Reading everything from a reader first drains the buffer. -/
theorem readAll_buffer (b : List Nat) (st : List (List Nat)) :
    readAll ⟨b, st⟩ = b ++ readAll ⟨[], st⟩ := by
  induction b with
  | nil => simp
  | cons x t ih =>
    rw [readAll]
    show x :: readAll ⟨t, st⟩ = (x :: t) ++ readAll ⟨[], st⟩
    rw [ih]
    rfl

/-- C1 (amended): round-trip of the codec — for every constructible Protocol
Value that is well-formed (`Wf`: no Set, Map or Double; simple strings and
simple errors nonempty and CR/LF-free; big numbers an optional sign plus
digits; verbatim format codes exactly 3 bytes; payloads valid UTF-8 and
integers/lengths within the platform types, which Rust's `str`/`i64`/`usize`
guarantee by construction), decoding the Display rendering with
`parse_resp_value` yields exactly the original value and consumes the whole
encoding, whatever the float formatter is. -/
theorem c1_roundtrip (F : FloatModel) (v : RespValue) (hwf : Wf v = true) :
    parse_resp_value F (encode F v) = .ok ((encode F v).length, v) := by
  have h := @parse_encode_core F (sizeOf v) v (Nat.le_refl _) hwf []
  simpa using h

/-- C1 witness: a concrete well-formed array round-trips. -/
theorem c1_roundtrip_witness :
    Wf (RespValue.array [RespValue.integer 5, RespValue.bulkString [104, 105]])
      = true ∧
    parse_resp_value floatTriv (encode floatTriv
        (RespValue.array [RespValue.integer 5, RespValue.bulkString [104, 105]]))
      = .ok ((encode floatTriv (RespValue.array [RespValue.integer 5,
            RespValue.bulkString [104, 105]])).length,
          RespValue.array [RespValue.integer 5, RespValue.bulkString [104, 105]]) :=
  ⟨by decide, c1_roundtrip floatTriv _ (by decide)⟩

/-- C1 counterexample: the claim quantifies over every constructible value,
but `SimpleString("")` encodes to `+\r\n`, which `is_not("\r\n")` rejects
(it requires a nonempty line), so `decode(encode(v)) == v` fails. -/
theorem c1_counterexample :
    parse_resp_value floatTriv (encode floatTriv (RespValue.simpleString []))
      = .error (.nom .errorKind) ∧
    parse_resp_value floatTriv (encode floatTriv (RespValue.simpleString []))
      ≠ .ok ((encode floatTriv (RespValue.simpleString [])).length,
          RespValue.simpleString []) := by
  have h : parse_resp_value floatTriv
      (encode floatTriv (RespValue.simpleString []))
      = .error (.nom .errorKind) := by
    simp [encode, RespDataType.tagByte, parse_resp_value, parse_simple_string,
      lineTok, nomTakeWhile1, bump, notCrLfByte, Except.map]
  refine ⟨h, ?_⟩
  rw [h]
  simp

/-- C2: the pull parser on `*`/`>` parses the length token and then decodes
exactly that many values in order (last two conjuncts); but the streaming
decoder `RespReader::next` parses the length of `*1\r\n:5\r\n` and returns
`Array(vec![])` without consuming the element (first conjunct), and returns
`Unimplemented` for Push (second conjunct) — the recursive element decode is
commented out in the source. -/
theorem c2_aggregate_decode :
    (respNext ⟨[42, 49, 13, 10, 58, 53, 13, 10], []⟩
      = .ok (.array []) ⟨[58, 53, 13, 10], []⟩) ∧
    (respNext ⟨[62, 49, 13, 10, 58, 53, 13, 10], []⟩
      = .err .unimplemented ⟨[58, 53, 13, 10], []⟩) ∧
    (∀ (F : FloatModel) (n : Nat) (rest : List Nat), n < 2 ^ 64 →
      parse_resp_value F (42 :: (natAscii n ++ 13 :: 10 :: rest))
        = (parse_elements F n rest).map fun p =>
            (1 + ((natAscii n).length + 2 + p.1), RespValue.array p.2)) ∧
    (∀ (F : FloatModel) (n : Nat) (rest : List Nat), n < 2 ^ 64 →
      parse_resp_value F (62 :: (natAscii n ++ 13 :: 10 :: rest))
        = (parse_elements F n rest).map fun p =>
            (1 + ((natAscii n).length + 2 + p.1), RespValue.push p.2)) := by
  refine ⟨?_, ?_, ?_, ?_⟩
  · simp [respNext, parseLength, parseLengthLoop, readerNext,
      respDataTypeOfByte, isDigit, parseLengthStep]
  · simp [respNext, readerNext, respDataTypeOfByte, nextLineLoop, isDigit]
  · intro F n rest hn
    have hus := parse_usize_exact hn rest
    have hai := parse_array_internal_ok F hus
    simp only [parse_resp_value, parse_array, hai, drop_cons_append, bump]
    cases hpe : parse_elements F n rest with
    | error e => simp [Except.map, hpe]
    | ok p =>
      cases p with
      | mk k2 vs => simp [Except.map, hpe]
  · intro F n rest hn
    have hus := parse_usize_exact hn rest
    have hai := parse_array_internal_ok F hus
    simp only [parse_resp_value, parse_push, hai, drop_cons_append, bump]
    cases hpe : parse_elements F n rest with
    | error e => simp [Except.map, hpe]
    | ok p =>
      cases p with
      | mk k2 vs => simp [Except.map, hpe]

/-- C2 witness: the pull-parser conjunct applied to a one-element array. -/
theorem c2_witness :
    parse_resp_value floatTriv (42 :: (natAscii 1 ++ 13 :: 10 :: [58, 53, 13, 10]))
      = (parse_elements floatTriv 1 [58, 53, 13, 10]).map fun p =>
          (1 + ((natAscii 1).length + 2 + p.1), RespValue.array p.2) :=
  c2_aggregate_decode.2.2.1 floatTriv 1 [58, 53, 13, 10] (by decide)

/-- C3: `AsyncReader::take` evaluated on its failing input — with one byte
buffered, `take(1)` panics (the `copy_from_slice` destination has length 0);
`take(0)` returns the empty vector without touching the buffer; with an empty
buffer and a finished stream `take(1)` reports end of stream. -/
theorem c3_take_eval :
    readerTake ⟨[97], []⟩ 1 = .panicked ∧
    readerTake ⟨[97], []⟩ 0 = .ok [] ⟨[97], []⟩ ∧
    readerTake ⟨[], []⟩ 1 = .eof ⟨[], []⟩ := by
  refine ⟨?_, ?_, ?_⟩ <;> simp [readerTake, readerTakeLoop, fillBuf]

/-- C4 (amended): discarding a checkpoint restores the reader's buffer to the
snapshot taken at creation, so every byte that was buffered at checkpoint
time is seen again by subsequent reads — but only those: the restore is of
the creation-time snapshot, whatever was pulled from the network during the
speculation is not reinstated (and the code has no commit operation). -/
theorem c4_checkpoint_restore (s0 : ReaderState) (k : Nat) :
    (checkpointDrop (checkpointNew s0) (specRun s0 k)).buffer = s0.buffer ∧
    ∃ t, readAll (checkpointDrop (checkpointNew s0) (specRun s0 k))
      = s0.buffer ++ t :=
  ⟨rfl, ⟨readAll ⟨[], (specRun s0 k).stream⟩,
    readAll_buffer s0.buffer (specRun s0 k).stream⟩⟩

/-- C4 counterexample: with an empty buffer and `ab` pending on the network,
one speculative read pulls both bytes (returning `a`); dropping the
checkpoint restores the empty snapshot, and a subsequent read sees nothing —
the bytes pulled from the network during the speculation are lost, contrary
to the claim. -/
theorem c4_counterexample :
    readerNext (⟨[], [[97, 98]]⟩ : ReaderState) = (some 97, ⟨[98], []⟩) ∧
    readAll (checkpointDrop (checkpointNew (⟨[], [[97, 98]]⟩ : ReaderState))
      (specRun (⟨[], [[97, 98]]⟩ : ReaderState) 1)) = [] := by
  refine ⟨rfl, ?_⟩
  simp [readAll, checkpointDrop, checkpointNew, specRun, readerNext, fillBuf]

/-- C5: hashing does not agree with equality — `Double(0.0)` and
`Double(-0.0)` compare equal under the structural `PartialEq` (which uses
IEEE `==` on `f64`), yet `Hash` feeds `to_bits()` to the hasher and the two
bit patterns differ, so a hasher distinguishes them, violating the claim
(and the `Hash`/`Eq` contract). -/
theorem c5_hash_disagrees_with_eq :
    respEq (RespValue.double 0) (RespValue.double (2 ^ 63)) = true ∧
    hashTrace (RespValue.double 0) ≠ hashTrace (RespValue.double (2 ^ 63)) := by
  constructor
  · decide
  · decide

/-- C6 counterexample: two `Double` values with bit-identical NaN payloads
(`0x7FF8000000000000`) compare unequal — `PartialEq` uses IEEE `==`, and
NaN is not equal to itself — contradicting the claim (and the reflexivity
demanded by the `Eq` impl). -/
theorem c6_counterexample :
    respEq (RespValue.double 9221120237041090560)
      (RespValue.double 9221120237041090560) = false := by
  decide

/-- C6 (amended): equality is structural and defined only within a variant —
every cross-variant pair (in particular a Double and an Integer of the same
numeric value) is unequal; Doubles compare by IEEE `==` on the payload:
bit-identical non-NaN payloads compare equal, while a NaN payload is unequal
even to itself. -/
theorem c6_structural_equality :
    (∀ v1 v2 : RespValue, v1.dataType ≠ v2.dataType → respEq v1 v2 = false) ∧
    (∀ bits : Nat, f64IsNaN bits = false →
      respEq (RespValue.double bits) (RespValue.double bits) = true) ∧
    (∀ bits : Nat, f64IsNaN bits = true →
      respEq (RespValue.double bits) (RespValue.double bits) = false) := by
  refine ⟨?_, ?_, ?_⟩
  · intro v1 v2 h
    cases v1 <;> cases v2 <;> first | rfl | exact absurd rfl h
  · intro bits h
    by_cases hz : f64IsZero bits <;> simp [respEq, f64Eq, h, hz]
  · intro bits h
    simp [respEq, f64Eq, h]

/-- C6 witness: the amended statement at concrete inputs. -/
theorem c6_witness :
    respEq (RespValue.double 0) (RespValue.integer 0) = false ∧
    respEq (RespValue.double 1) (RespValue.double 1) = true ∧
    respEq (RespValue.double 9221120237041090560)
      (RespValue.double 9221120237041090560) = false :=
  ⟨c6_structural_equality.1 (RespValue.double 0) (RespValue.integer 0)
      (by decide),
   c6_structural_equality.2.1 1 (by decide),
   c6_structural_equality.2.2 9221120237041090560 (by decide)⟩

/-- C7: length parsing is checked — any all-digit length token whose decimal
value exceeds `usize::MAX = 2^64 - 1` makes the streaming decoder's
`parse_length` return the distinct `LengthOverflowed` error (first
conjunct), and makes the pull parser's `parse_usize` fail with its distinct
integer-parse (`ParseInt`) error (second conjunct); neither wraps around,
and the total functions cannot panic. -/
theorem c7_length_overflow :
    (∀ ds r : List Nat, (∀ b ∈ ds, isDigit b = true) →
      2 ^ 64 ≤ digitsValFrom 0 ds →
      (parseLength ⟨ds ++ 13 :: 10 :: r, []⟩).1 = .error .lengthOverflowed) ∧
    (∀ ds r : List Nat, (∀ b ∈ ds, isDigit b = true) →
      2 ^ 64 ≤ digitsValFrom 0 ds →
      parse_usize (ds ++ 13 :: 10 :: r) = .error .parseInt) := by
  constructor
  · intro ds r hd hov
    exact parseLengthLoop_overflow ds 0 r hd (by norm_num) hov
  · intro ds r hd hov
    have hne : ds ≠ [] := by
      intro h
      subst h
      simp only [digitsValFrom, List.foldl_nil] at hov
      omega
    unfold parse_usize
    rw [@nomTakeWhile1_exact isDigit ds hd hne 13 (by decide) (10 :: r)]
    simp only [List.drop_left, nomCrlf]
    rw [if_neg (by omega)]

/-- C7 witness: the spec's `99999999999999999999\r\n` token (twenty nines,
exceeding 64-bit range) in both decoders. -/
theorem c7_witness :
    (parseLength ⟨List.replicate 20 57 ++ 13 :: 10 :: [], []⟩).1
      = .error .lengthOverflowed ∧
    parse_usize (List.replicate 20 57 ++ 13 :: 10 :: [])
      = .error .parseInt :=
  ⟨c7_length_overflow.1 (List.replicate 20 57) [] (by decide) (by decide),
   c7_length_overflow.2 (List.replicate 20 57) [] (by decide) (by decide)⟩

/-- C8: BulkString framing — the pull parser reads exactly the declared
number of payload bytes and then requires CRLF, accepting correct framing
(fourth conjunct) and rejecting a mismatch (fifth conjunct,
`$3\r\nab\r\nc`); the streaming decoder only exhibits this for length 0
(second and third conjuncts: correct framing accepted, mismatch rejected
with MissingNewline), because for any nonzero length the broken
`AsyncReader::take` panics even on correctly framed input (first
conjunct, `$3\r\nabc\r\n`). -/
theorem c8_bulk_framing :
    (respNext ⟨[36, 51, 13, 10, 97, 98, 99, 13, 10], []⟩ = .panicked) ∧
    (respNext ⟨[36, 48, 13, 10, 13, 10], []⟩
      = .ok (.bulkString []) ⟨[], []⟩) ∧
    (respNext ⟨[36, 48, 13, 10, 88, 13, 10], []⟩
      = .err .missingNewline ⟨[13, 10], []⟩) ∧
    (∀ (F : FloatModel) (s r : List Nat), utf8Valid s = true →
      s.length < 2 ^ 64 →
      parse_resp_value F (36 :: (natAscii s.length ++ 13 :: 10 ::
          (s ++ 13 :: 10 :: r)))
        = .ok (1 + ((natAscii s.length).length + 2 + s.length + 2),
            .bulkString s)) ∧
    (parse_resp_value floatTriv [36, 51, 13, 10, 97, 98, 13, 10, 99]
      = .error (.nom .errorKind)) := by
  refine ⟨?_, ?_, ?_, ?_, ?_⟩
  · simp [respNext, parseLength, parseLengthLoop, readerNext,
      respDataTypeOfByte, isDigit, parseLengthStep, readerTake,
      readerTakeLoop]
  · have hu : utf8Valid [] = true := rfl
    simp [respNext, parseLength, parseLengthLoop, readerNext,
      respDataTypeOfByte, isDigit, parseLengthStep, readerTake,
      readerTakeLoop, assertNewline, hu]
  · simp [respNext, parseLength, parseLengthLoop, readerNext,
      respDataTypeOfByte, isDigit, parseLengthStep, readerTake,
      readerTakeLoop, assertNewline]
  · intro F s r hu hlen
    have hb := parse_bulk_string_exact hu hlen r
    simp only [parse_resp_value, hb, bump, Except.map]
  · simp [parse_resp_value, parse_bulk_string, length_bytes, parse_usize,
      nomTakeWhile1, nomTake, nomCrlf, bump, isDigit, digitsValFrom,
      Except.map]

/-- C8 witness: the correctly framed `$3\r\nabc\r\n` through the pull
parser. -/
theorem c8_witness :
    parse_resp_value floatTriv
        (36 :: (natAscii ([97, 98, 99] : List Nat).length ++ 13 :: 10 ::
          ([97, 98, 99] ++ 13 :: 10 :: [])))
      = .ok (1 + ((natAscii ([97, 98, 99] : List Nat).length).length + 2
            + ([97, 98, 99] : List Nat).length + 2),
          .bulkString [97, 98, 99]) :=
  c8_bulk_framing.2.2.2.1 floatTriv [97, 98, 99] [] (by decide) (by decide)

/-- C9 (amended): for every input whose tag byte is unregistered, the
streaming decoder returns `UnknownDataType` carrying that byte; when the
line body after the tag contains no bare CR, it consumes through the next
CRLF and the stream is positioned immediately after that terminator (a bare
CR followed by a non-LF byte instead stops the line scan right after that
byte, as the counterexample shows). -/
theorem c9_unknown_tag (b : Nat) (L rest : List Nat)
    (hb : respDataTypeOfByte b = none) (hL : 13 ∉ L) :
    respNext ⟨b :: (L ++ 13 :: 10 :: rest), []⟩
      = .err (.unknownDataType b) ⟨rest, []⟩ := by
  have hline := nextLineLoop_crlf L [] rest hL
  simp only [respNext, readerNext, hb, hline]

/-- C9 witness: `?foo\r\n` yields `UnknownDataType('?')` with the stream
positioned right after the CRLF. -/
theorem c9_witness :
    respNext ⟨63 :: ([102, 111, 111] ++ 13 :: 10 :: []), []⟩
      = .err (.unknownDataType 63) ⟨[], []⟩ :=
  c9_unknown_tag 63 [102, 111, 111] [] (by decide) (by decide)

/-- C9 counterexample: on `?a\rb\r\n` the decoder does return
`UnknownDataType('?')`, but `next_line` stops right after the byte following
the bare CR, so the trailing CRLF is left unconsumed — the stream is not
positioned after the next CRLF as the claim states. -/
theorem c9_counterexample :
    respNext ⟨[63, 97, 13, 98, 13, 10], []⟩
      = .err (.unknownDataType 63) ⟨[13, 10], []⟩ ∧
    ([13, 10] : List Nat) ≠ [] := by
  refine ⟨?_, by simp⟩
  simp [respNext, readerNext, respDataTypeOfByte, nextLineLoop]

/-- C10: non-UTF-8 bulk payloads — the pull parser rejects every correctly
framed BulkString or BulkError whose payload bytes are not valid UTF-8 with
its UTF-8 parse error (second and third conjuncts), so bulk payloads cannot
carry arbitrary binary content there; the streaming decoder's BulkString
path, however, panics inside the broken `take` before its
`NonUtf8String` check can ever run on a nonempty payload (first conjunct). -/
theorem c10_utf8_validation :
    (respNext ⟨[36, 49, 13, 10, 255, 13, 10], []⟩ = .panicked) ∧
    (∀ (F : FloatModel) (p rest : List Nat), p.length < 2 ^ 64 →
      utf8Valid p = false →
      parse_resp_value F (36 :: (natAscii p.length ++ 13 :: 10 ::
        (p ++ 13 :: 10 :: rest))) = .error .parseUtf8) ∧
    (∀ (F : FloatModel) (p rest : List Nat), p.length < 2 ^ 64 →
      utf8Valid p = false →
      parse_resp_value F (33 :: (natAscii p.length ++ 13 :: 10 ::
        (p ++ 13 :: 10 :: rest))) = .error .parseUtf8) := by
  refine ⟨?_, ?_, ?_⟩
  · simp [respNext, parseLength, parseLengthLoop, readerNext,
      respDataTypeOfByte, isDigit, parseLengthStep, readerTake,
      readerTakeLoop]
  · intro F p rest hlen hu
    have hlb := length_bytes_exact hlen rest
    simp only [parse_resp_value, parse_bulk_string, hlb, hu, bump,
      Except.map, Bool.false_eq_true, if_false]
  · intro F p rest hlen hu
    have hlb := length_bytes_exact hlen rest
    simp only [parse_resp_value, parse_bulk_error, hlb, hu, bump,
      Except.map, Bool.false_eq_true, if_false]

/-- C10 witness: a one-byte `0xFF` payload is rejected by the pull parser in
both bulk variants. -/
theorem c10_witness :
    parse_resp_value floatTriv (36 :: (natAscii ([255] : List Nat).length
        ++ 13 :: 10 :: ([255] ++ 13 :: 10 :: []))) = .error .parseUtf8 ∧
    parse_resp_value floatTriv (33 :: (natAscii ([255] : List Nat).length
        ++ 13 :: 10 :: ([255] ++ 13 :: 10 :: []))) = .error .parseUtf8 :=
  ⟨c10_utf8_validation.2.1 floatTriv [255] [] (by decide) (by decide),
   c10_utf8_validation.2.2 floatTriv [255] [] (by decide) (by decide)⟩

end Resp
